import Mathlib

/-!
Shallow embedding of the nanomix deconvolution core
(`src/python/nanomix/models.py` and `src/scripts/nanomix.py`).

Modelling conventions:

* numpy/python floats are modelled by exact rationals `ℚ`; the numpy
  special values `inf`, `-inf`, `nan` — which matter for `m/t` division
  by zero and for the `ll < best_ll` comparison in the multi-start
  loops — are modelled by the inductive `NpVal`;
* external library routines that the repository only calls
  (`scipy.optimize.nnls`, `scipy.optimize.minimize(method='SLSQP')`,
  `scipy.stats.dirichlet.rvs`, `scipy.stats.binom.logpmf`, `math.log`)
  are abstract function parameters: the embedding reproduces exactly
  the arguments the source passes to them and what it does with the
  results, and theorems assume only the routines' documented contracts;
* numpy vectors are `List ℚ`; `sigma.reshape((K, 1))` and `np.ravel`
  are shape bookkeeping with no numeric content and are omitted.
-/

namespace Nanomix

/-- A numpy floating-point scalar: either an ordinary (exact) value or
one of the special values `inf`, `-inf`, `nan`. -/
inductive NpVal where
  | real : ℚ → NpVal
  | posInf : NpVal
  | negInf : NpVal
  | nan : NpVal
deriving DecidableEq

/-- IEEE-754 strict less-than on numpy scalars: any comparison with
`nan` is false; `-inf` is below everything else; `inf` is above. -/
def npLt : NpVal → NpVal → Bool
  | NpVal.nan, _ => false
  | _, NpVal.nan => false
  | NpVal.real a, NpVal.real b => decide (a < b)
  | NpVal.real _, NpVal.posInf => true
  | NpVal.posInf, _ => false
  | NpVal.negInf, NpVal.negInf => false
  | NpVal.negInf, _ => true
  | NpVal.real _, NpVal.negInf => false

/-- IEEE-754 less-or-equal on numpy scalars. -/
def npLe : NpVal → NpVal → Bool
  | NpVal.nan, _ => false
  | _, NpVal.nan => false
  | NpVal.negInf, _ => true
  | _, NpVal.posInf => true
  | NpVal.real a, NpVal.real b => decide (a ≤ b)
  | NpVal.posInf, NpVal.real _ => false
  | NpVal.posInf, NpVal.negInf => false
  | NpVal.real _, NpVal.negInf => false

/-- Whether a numpy scalar is an ordinary (finite, non-nan) value. -/
def NpVal.isReal : NpVal → Bool
  | NpVal.real _ => true
  | _ => false

/-- numpy elementwise division of floats: division by zero does not
raise; it produces `nan` for `0/0` and a signed infinity otherwise
(numpy only emits a `RuntimeWarning`). -/
def npDiv (a b : ℚ) : NpVal :=
  if b = 0 then
    (if a = 0 then NpVal.nan else if 0 < a then NpVal.posInf else NpVal.negInf)
  else NpVal.real (a / b)

/-- Dot product of two rational vectors (one row of `np.matmul`). -/
def dot (r s : List ℚ) : ℚ := (List.zipWith (fun a b => a * b) r s).sum

/-- One entry of `np.clip(x, 0, 1.0)`. -/
def clip01 (q : ℚ) : ℚ := min (max q 0) 1

/-- Python `int()` applied to a non-negative float count (used by
`math.comb(int(t), int(m))`). -/
def pyInt (q : ℚ) : ℕ := (Rat.floor q).toNat

/-- The `ReferenceAtlas` object of `src/scripts/nanomix.py` after
construction: `cpg_ids` the coordinate triples, `K` the stored number
of cell types, `cell_types` the column labels, and `A` the N×K matrix
(list of N rows of length K) of per-site per-cell-type rates. -/
structure ReferenceAtlas where
  cpg_ids : List (String × ℤ × ℤ)
  K : ℕ
  cell_types : List String
  A : List (List ℚ)

/-- `ReferenceAtlas.get_x`: `np.matmul(self.A, sigma)`. -/
def ReferenceAtlas.get_x (atlas : ReferenceAtlas) (sigma : List ℚ) : List ℚ :=
  atlas.A.map (fun row => dot row sigma)

/-- The `Sample` object: `Sample(name, x_hat, m, t)` stores its four
fields verbatim. -/
structure Sample where
  name : String
  x_hat : List ℚ
  m : List ℚ
  t : List ℚ

/-- The construction path used by `fit_model` and `deconvolve`:
`xhat = m/t` followed by `Sample(name, xhat, m, t)`, in exact
arithmetic (the numpy special-value behaviour of the division itself
is modelled separately by `computeXhat`). -/
def mkSample (name : String) (m t : List ℚ) : Sample :=
  { name := name
    x_hat := List.zipWith (fun a b => a / b) m t
    m := m
    t := t }

/-- The `xhat = m/t` numpy division of `fit_model`
(`src/python/nanomix/models.py` line 60) with numpy float semantics.
The computation is wrapped in `Except` to record that numpy raises no
exception here: every input produces `Except.ok`, with `nan`/`inf`
entries where a total count is zero. -/
def computeXhat (m t : List ℚ) : Except String (List NpVal) :=
  Except.ok (List.zipWith npDiv m t)

/-- Three-argument elementwise map, for the numpy broadcast
`binom.logpmf(sample.m, sample.t, p)`. -/
def zipW3 (f : ℚ → ℚ → ℚ → ℚ) : List ℚ → List ℚ → List ℚ → List ℚ
  | a :: as, b :: bs, c :: cs => f a b c :: zipW3 f as bs cs
  | _, _, _ => []

/-- The clipped expected-methylation vector
`x = np.clip(np.ravel(atlas.get_x(sigma)), 0, 1.0)` computed by both
likelihood functions. -/
def clippedX (atlas : ReferenceAtlas) (sigma : List ℚ) : List ℚ :=
  (atlas.get_x sigma).map clip01

/-- The effective call-probability vector of
`log_likelihood_sequencing_with_errors`: `if p11:` (Python float
truthiness, i.e. `p11 ≠ 0`) selects `x*p11 + (1-x)*p01`, otherwise
`x*(1-p01) + (1-x)*p01`. -/
def pVec (p01 p11 : ℚ) (x : List ℚ) : List ℚ :=
  if p11 ≠ 0 then x.map (fun xi => xi * p11 + (1 - xi) * p01)
  else x.map (fun xi => xi * (1 - p01) + (1 - xi) * p01)

/-- The normalization term
`sum([math.log(math.comb(int(t), int(m))) for m,t in zip(sample.m, sample.t)])`,
with `math.log` abstract (`mlog`) and `math.comb` exact. -/
def binomial_coef_term (mlog : ℚ → ℚ) (sample : Sample) : ℚ :=
  ((sample.m.zip sample.t).map
    (fun mt => mlog ((Nat.choose (pyInt mt.2) (pyInt mt.1) : ℕ) : ℚ))).sum

/-- `log_likelihood_sequencing_perfect` (models.py lines 74–78):
clip `A·sigma` into `[0,1]`, take `binom.logpmf(m, t, x)` elementwise
(abstract `logpmf`), and sum.  The `p01`, `p11` parameters are
accepted and ignored, as in the source. -/
def log_likelihood_sequencing_perfect (logpmf : ℚ → ℚ → ℚ → ℚ)
    (atlas : ReferenceAtlas) (sigma : List ℚ) (sample : Sample)
    (p01 p11 : ℚ) : ℚ :=
  (zipW3 logpmf sample.m sample.t (clippedX atlas sigma)).sum

/-- `log_likelihood_sequencing_with_errors` (models.py lines 100–114):
clip `A·sigma`, form the error-adjusted probabilities, sum the
elementwise `binom.logpmf`, and subtract the binomial-coefficient
normalization term. -/
def log_likelihood_sequencing_with_errors (logpmf : ℚ → ℚ → ℚ → ℚ)
    (mlog : ℚ → ℚ) (atlas : ReferenceAtlas) (sigma : List ℚ)
    (sample : Sample) (p01 p11 : ℚ) : ℚ :=
  (zipW3 logpmf sample.m sample.t (pVec p01 p11 (clippedX atlas sigma))).sum
    - binomial_coef_term mlog sample

/-- The equality constraint `1 - np.sum(x)` handed to the minimizer. -/
def eq_constraint (x : List ℚ) : ℚ := 1 - x.sum

/-- `fit_uniform`: the `null` driver, `[1.0/atlas.K] * atlas.K`. -/
def fit_uniform (atlas : ReferenceAtlas) (_sample : Sample) : List ℚ :=
  List.replicate atlas.K (1 / (atlas.K : ℚ))

/-- numpy `v / np.sum(v)`, the final re-normalization used by
`fit_nnls`, `fit_llse` and `fit_llsp`. -/
def npNormalize (v : List ℚ) : List ℚ := v.map (fun q => q / v.sum)

/-- `fit_nnls` (models.py lines 137–144): append an all-ones row to
`atlas.A` and a `1.0` to `sample.x_hat`, hand both to the external
`scipy.optimize.nnls` solver (abstract `nnlsSolve`), and renormalize
the returned vector. -/
def fit_nnls (nnlsSolve : List (List ℚ) → List ℚ → List ℚ)
    (atlas : ReferenceAtlas) (sample : Sample) : List ℚ :=
  let A := atlas.A ++ [List.replicate atlas.K 1]
  let b := sample.x_hat ++ [1]
  npNormalize (nnlsSolve A b)

/-- One pass of the multi-start loop body: run the minimizer on one
start, read `ll = res.get("fun")`, and update `(best_ll, best_sol)`
when `ll < best_ll` (IEEE comparison, so a `nan` objective never
updates). -/
def trialStep (step : List ℚ → List ℚ × NpVal)
    (st : NpVal × Option (List ℚ × NpVal)) (init : List ℚ) :
    NpVal × Option (List ℚ × NpVal) :=
  let res := step init
  if npLt res.2 st.1 then (res.2, some res) else st

/-- The whole multi-start loop, starting from
`best_ll = np.inf`, `best_sol = None`. -/
def runTrials (step : List ℚ → List ℚ × NpVal)
    (inits : List (List ℚ)) : NpVal × Option (List ℚ × NpVal) :=
  inits.foldl (trialStep step) (NpVal.posInf, none)

/-- The abstract signature of `scipy.optimize.minimize(f, init,
method='SLSQP', options={'maxiter': …}, bounds=…, constraints=…)`:
it receives the objective, the start, the iteration cap, the bounds
and the equality-constraint function, and yields the solution vector
`res.x` together with the achieved objective `res.fun` (a float that
may be `inf` or `nan`). -/
def Minimizer : Type :=
  (List ℚ → ℚ) → List ℚ → ℕ → List (ℚ × ℚ) → (List ℚ → ℚ) → List ℚ × NpVal

/-- The objective handed to the minimizer by `fit_llse`:
`lambda x: -1 * log_likelihood_sequencing_with_errors(atlas, x, sample, p01, p11)`. -/
def llseObjective (logpmf : ℚ → ℚ → ℚ → ℚ) (mlog : ℚ → ℚ)
    (atlas : ReferenceAtlas) (sample : Sample) (p01 p11 : ℚ) :
    List ℚ → ℚ :=
  fun x => -(log_likelihood_sequencing_with_errors logpmf mlog atlas x sample p01 p11)

/-- The objective handed to the minimizer by `fit_llsp`:
`lambda x: -1 * log_likelihood_sequencing_perfect(atlas, x, sample, p01, p11)`. -/
def llspObjective (logpmf : ℚ → ℚ → ℚ → ℚ)
    (atlas : ReferenceAtlas) (sample : Sample) (p01 p11 : ℚ) :
    List ℚ → ℚ :=
  fun x => -(log_likelihood_sequencing_perfect logpmf atlas x sample p01 p11)

/-- The bounds `bnds = [(0.0, 1.0)] * atlas.K`. -/
def simplexBounds (K : ℕ) : List (ℚ × ℚ) := List.replicate K ((0 : ℚ), (1 : ℚ))

/-- The Dirichlet concentration vector `alpha = [1.0/atlas.K] * atlas.K`. -/
def dirichletAlpha (K : ℕ) : List ℚ := List.replicate K (1 / (K : ℚ))

/-- `fit_llse` (models.py lines 119–135): draw `n_trials = 10` starts
from `dirichlet.rvs(alpha, size=10)` with `alpha = [1/K]*K` (abstract
`dirichletRvs`), minimize the negated error-model log-likelihood from
each start with SLSQP capped at 100 iterations on bounds `[0,1]^K`
with the `eq_constraint`, keep the best, and return
`best_sol.x / np.sum(best_sol.x)`.  When no trial ever satisfies
`ll < best_ll`, `best_sol` is still `None` and the source crashes on
`best_sol.x` (`AttributeError`); that outcome is `none` here. -/
def fit_llse (dirichletRvs : List ℚ → ℕ → List (List ℚ))
    (minimizeF : Minimizer) (logpmf : ℚ → ℚ → ℚ → ℚ) (mlog : ℚ → ℚ)
    (atlas : ReferenceAtlas) (sample : Sample) (p01 p11 : ℚ) :
    Option (List ℚ) :=
  let inits := dirichletRvs (dirichletAlpha atlas.K) 10
  ((runTrials
      (fun init => minimizeF (llseObjective logpmf mlog atlas sample p01 p11)
        init 100 (simplexBounds atlas.K) eq_constraint) inits).2).map
    (fun best => npNormalize best.1)

/-- `fit_llsp` (models.py lines 80–96): identical to `fit_llse` but
minimizing the negated perfect-calling log-likelihood. -/
def fit_llsp (dirichletRvs : List ℚ → ℕ → List (List ℚ))
    (minimizeF : Minimizer) (logpmf : ℚ → ℚ → ℚ → ℚ)
    (atlas : ReferenceAtlas) (sample : Sample) (p01 p11 : ℚ) :
    Option (List ℚ) :=
  let inits := dirichletRvs (dirichletAlpha atlas.K) 10
  ((runTrials
      (fun init => minimizeF (llspObjective logpmf atlas sample p01 p11)
        init 100 (simplexBounds atlas.K) eq_constraint) inits).2).map
    (fun best => npNormalize best.1)

/-- The joined table handed to `ReferenceAtlas.__init__`
(`gr.df.loc[:, gr_atlas.columns]`): named coordinate columns, the
ordered list of column labels, and the numeric values of each column. -/
structure GRangesTable where
  chrom : List String
  chromStart : List ℤ
  chromEnd : List ℤ
  columns : List String
  col : String → List ℚ

/-- The column labels removed by `ReferenceAtlas.__init__` before
counting cell types: `set(gr.columns) - {'Chromosome', 'Start', 'End', 'type'}`. -/
def reservedColumns : List String := ["Chromosome", "Start", "End", "type"]

/-- `ReferenceAtlas.__init__` (nanomix.py lines 19–26): build
`cpg_ids` from the coordinate columns, take the remaining column
labels as cell types (a Python `set`, so duplicates collapse; the
set's iteration order is arbitrary and is fixed here as first
occurrence), store `K = len(cell_types)` and the N×K matrix `A`.
The constructor performs no validation and cannot fail. -/
def mkReferenceAtlas (gr : GRangesTable) : ReferenceAtlas :=
  let cts := (gr.columns.filter (fun c => c ∉ reservedColumns)).dedup
  let N := gr.chrom.length
  { cpg_ids := gr.chrom.zip (gr.chromStart.zip gr.chromEnd)
    K := cts.length
    cell_types := cts
    A := (List.range N).map (fun i => cts.map (fun c => (gr.col c).getD i 0)) }

/-- An observable event of `fit_model` (models.py lines 22–72), in
execution order: reading an input file, raising the `ValueError` of
the final `else`, or dispatching to a fitting driver. -/
inductive FitEvent where
  | readFile : String → FitEvent
  | raiseValueError : String → FitEvent
  | fitModel : String → FitEvent
deriving DecidableEq

/-- The model names `fit_model` dispatches on. -/
def supportedModels : List String := ["nnls", "llse", "llsp", "null"]

/-- The ordered event trace of `fit_model(methylome, atlas_path,
model, p01, p11)`: it always reads the atlas file first (line 37) and
the methylome file second (line 45), and only then dispatches on the
model name (lines 62–71), raising
`ValueError(f"no such model: {model}. …")` for an unsupported name. -/
def fit_model_events (methylome atlas_path model : String) : List FitEvent :=
  [FitEvent.readFile atlas_path, FitEvent.readFile methylome] ++
    (if model ∈ supportedModels then [FitEvent.fitModel model]
     else [FitEvent.raiseValueError
            ("no such model: " ++ model ++ ". Choose from [nnls, llse, llsp, mmse]")])

/-- The sequencing-error log-likelihood written the way the
specification states it: the sum over sites `i` of the binomial
log-pmf of `m[i]` successes in `t[i]` trials with success probability
`p[i]`, minus `Σ log C(t[i], m[i])`, where
`x[i] = clip((A·sigma)[i], 0, 1)` and `p[i] = x[i]*p11 + (1-x[i])*p01`
when `p11` is nonzero, else `p[i] = x[i]*(1-p01) + (1-x[i])*p01`. -/
def ll_with_errors_spec (logpmf : ℚ → ℚ → ℚ → ℚ) (mlog : ℚ → ℚ)
    (atlas : ReferenceAtlas) (sigma : List ℚ) (sample : Sample)
    (p01 p11 : ℚ) : ℚ :=
  (Finset.sum (Finset.range atlas.A.length)
      (fun i => logpmf (sample.m.getD i 0) (sample.t.getD i 0)
        (if p11 ≠ 0 then
          clip01 (dot (atlas.A.getD i []) sigma) * p11 +
            (1 - clip01 (dot (atlas.A.getD i []) sigma)) * p01
        else
          clip01 (dot (atlas.A.getD i []) sigma) * (1 - p01) +
            (1 - clip01 (dot (atlas.A.getD i []) sigma)) * p01)))
    - Finset.sum (Finset.range atlas.A.length)
        (fun i => mlog ((Nat.choose (pyInt (sample.t.getD i 0))
                          (pyInt (sample.m.getD i 0)) : ℕ) : ℚ))

/-! Helper lemmas. -/

lemma clip01_nonneg (q : ℚ) : 0 ≤ clip01 q := by
  unfold clip01
  exact le_min (le_max_right q 0) zero_le_one

lemma clip01_le_one (q : ℚ) : clip01 q ≤ 1 := min_le_right _ _

lemma sum_map_div (v : List ℚ) (s : ℚ) :
    (v.map (fun q => q / s)).sum = v.sum / s := by
  induction v with
  | nil => simp
  | cons a as ih => simp [ih, add_div]

lemma npNormalize_simplex (v : List ℚ) (h0 : ∀ q ∈ v, 0 ≤ q)
    (hs : 0 < v.sum) :
    (∀ q ∈ npNormalize v, 0 ≤ q) ∧ (npNormalize v).sum = 1 := by
  constructor
  · intro q hq
    rcases List.mem_map.mp hq with ⟨a, ha, rfl⟩
    exact div_nonneg (h0 a ha) (le_of_lt hs)
  · unfold npNormalize
    rw [sum_map_div]
    exact div_self (ne_of_gt hs)

lemma getD_map_lt {α β : Type} (f : α → β) :
    ∀ (l : List α) (i : ℕ) (d : β) (d' : α), i < l.length →
      (l.map f).getD i d = f (l.getD i d')
  | [], i, _, _, h => absurd h (by simp)
  | a :: as, 0, d, d', _ => rfl
  | a :: as, i + 1, d, d', h =>
      getD_map_lt f as i d d' (by simpa using h)

lemma zipW3_sum_eq (f : ℚ → ℚ → ℚ → ℚ) :
    ∀ (n : ℕ) (l1 l2 l3 : List ℚ), l1.length = n → l2.length = n →
      l3.length = n →
      (zipW3 f l1 l2 l3).sum =
        Finset.sum (Finset.range n)
          (fun i => f (l1.getD i 0) (l2.getD i 0) (l3.getD i 0)) := by
  intro n
  induction n with
  | zero =>
    intro l1 l2 l3 h1 h2 h3
    rw [List.length_eq_zero] at h1 h2 h3
    subst h1; subst h2; subst h3
    simp [zipW3]
  | succ n ih =>
    intro l1 l2 l3 h1 h2 h3
    rcases l1 with _ | ⟨a, as⟩
    · simp at h1
    rcases l2 with _ | ⟨b, bs⟩
    · simp at h2
    rcases l3 with _ | ⟨c, cs⟩
    · simp at h3
    simp only [List.length_cons, Nat.succ_inj] at h1 h2 h3
    rw [Finset.sum_range_succ']
    simp only [zipW3, List.sum_cons, List.getD_cons_succ, List.getD_cons_zero]
    rw [ih as bs cs h1 h2 h3]
    ring

lemma zip_map_sum_eq (g : ℚ → ℚ → ℚ) :
    ∀ (n : ℕ) (l1 l2 : List ℚ), l1.length = n → l2.length = n →
      ((l1.zip l2).map (fun mt => g mt.1 mt.2)).sum =
        Finset.sum (Finset.range n)
          (fun i => g (l1.getD i 0) (l2.getD i 0)) := by
  intro n
  induction n with
  | zero =>
    intro l1 l2 h1 h2
    rw [List.length_eq_zero] at h1 h2
    subst h1; subst h2
    simp
  | succ n ih =>
    intro l1 l2 h1 h2
    rcases l1 with _ | ⟨a, as⟩
    · simp at h1
    rcases l2 with _ | ⟨b, bs⟩
    · simp at h2
    simp only [List.length_cons, Nat.succ_inj] at h1 h2
    rw [Finset.sum_range_succ']
    simp only [List.zip_cons_cons, List.map_cons, List.sum_cons,
      List.getD_cons_succ, List.getD_cons_zero]
    rw [ih as bs h1 h2]
    ring

lemma foldl_trialStep_mem (step : List ℚ → List ℚ × NpVal) :
    ∀ (inits : List (List ℚ)) (st : NpVal × Option (List ℚ × NpVal))
      (b : List ℚ × NpVal),
      (List.foldl (trialStep step) st inits).2 = some b →
      st.2 = some b ∨ ∃ i ∈ inits, b = step i := by
  intro inits
  induction inits with
  | nil =>
    intro st b h
    exact Or.inl h
  | cons i is ih =>
    intro st b h
    rw [List.foldl_cons] at h
    rcases ih (trialStep step st i) b h with h' | ⟨i', hi', rfl⟩
    · simp only [trialStep] at h'
      by_cases hlt : npLt (step i).2 st.1 = true
      · rw [if_pos hlt] at h'
        exact Or.inr ⟨i, List.mem_cons_self i is, (Option.some_inj.mp h').symm⟩
      · rw [if_neg hlt] at h'
        exact Or.inl h'
    · exact Or.inr ⟨i', List.mem_cons_of_mem i hi', rfl⟩

lemma isReal_exists {v : NpVal} (h : v.isReal = true) :
    ∃ q, v = NpVal.real q := by
  cases v with
  | real q => exact ⟨q, rfl⟩
  | posInf => simp [NpVal.isReal] at h
  | negInf => simp [NpVal.isReal] at h
  | nan => simp [NpVal.isReal] at h

lemma npLe_refl_real {v : NpVal} (h : v.isReal = true) :
    npLe v v = true := by
  rcases isReal_exists h with ⟨q, rfl⟩
  simp [npLe]

lemma npLe_of_npLt {a b : NpVal} (h : npLt a b = true) :
    npLe a b = true := by
  cases a <;> cases b <;>
    first
      | rfl
      | (simp only [npLt, decide_eq_true_eq] at h
         simpa [npLe, decide_eq_true_eq] using le_of_lt h)
      | simp [npLt] at h

lemma npLe_of_not_npLt_real {a b : NpVal} (ha : a.isReal = true)
    (hb : b.isReal = true) (h : npLt a b = false) : npLe b a = true := by
  rcases isReal_exists ha with ⟨x, rfl⟩
  rcases isReal_exists hb with ⟨y, rfl⟩
  simp only [npLt, decide_eq_false_iff_not] at h
  simpa [npLe, decide_eq_true_eq] using le_of_not_lt h

lemma npLe_trans_real {a b c : NpVal} (ha : a.isReal = true)
    (hb : b.isReal = true) (hc : c.isReal = true) (hab : npLe a b = true)
    (hbc : npLe b c = true) : npLe a c = true := by
  rcases isReal_exists ha with ⟨x, rfl⟩
  rcases isReal_exists hb with ⟨y, rfl⟩
  rcases isReal_exists hc with ⟨z, rfl⟩
  simp only [npLe, decide_eq_true_eq] at hab hbc ⊢
  exact le_trans hab hbc

lemma foldl_trialStep_min (step : List ℚ → List ℚ × NpVal) :
    ∀ (inits : List (List ℚ)) (b : List ℚ × NpVal),
      b.2.isReal = true →
      (∀ i ∈ inits, (step i).2.isReal = true) →
      ∃ best,
        List.foldl (trialStep step) (b.2, some b) inits =
          (best.2, some best) ∧
        best.2.isReal = true ∧
        (best = b ∨ ∃ i ∈ inits, best = step i) ∧
        npLe best.2 b.2 = true ∧
        ∀ i ∈ inits, npLe best.2 (step i).2 = true := by
  intro inits
  induction inits with
  | nil =>
    intro b hb _
    exact ⟨b, rfl, hb, Or.inl rfl, npLe_refl_real hb, by simp⟩
  | cons i is ih =>
    intro b hb hall
    have hres : (step i).2.isReal = true := hall i (List.mem_cons_self i is)
    have hall' : ∀ j ∈ is, (step j).2.isReal = true :=
      fun j hj => hall j (List.mem_cons_of_mem i hj)
    rw [List.foldl_cons]
    by_cases hlt : npLt (step i).2 b.2 = true
    · have hstep : trialStep step (b.2, some b) i =
        ((step i).2, some (step i)) := by
        simp only [trialStep]
        rw [if_pos hlt]
      rw [hstep]
      rcases ih (step i) hres hall' with
        ⟨best, heq, hbest, hmem, hle, hles⟩
      refine ⟨best, heq, hbest, ?_, ?_, ?_⟩
      · rcases hmem with rfl | ⟨j, hj, rfl⟩
        · exact Or.inr ⟨i, List.mem_cons_self i is, rfl⟩
        · exact Or.inr ⟨j, List.mem_cons_of_mem i hj, rfl⟩
      · exact npLe_trans_real hbest hres hb hle (npLe_of_npLt hlt)
      · intro j hj
        rcases List.mem_cons.mp hj with rfl | hj'
        · exact hle
        · exact hles j hj'
    · have hstep : trialStep step (b.2, some b) i = (b.2, some b) := by
        simp only [trialStep]
        rw [if_neg hlt]
      rw [hstep]
      rcases ih b hb hall' with ⟨best, heq, hbest, hmem, hle, hles⟩
      have hlt' : npLt (step i).2 b.2 = false := by
        simpa using hlt
      refine ⟨best, heq, hbest, ?_, hle, ?_⟩
      · rcases hmem with rfl | ⟨j, hj, rfl⟩
        · exact Or.inl rfl
        · exact Or.inr ⟨j, List.mem_cons_of_mem i hj, rfl⟩
      · intro j hj
        rcases List.mem_cons.mp hj with rfl | hj'
        · exact npLe_trans_real hbest hb hres hle
            (npLe_of_not_npLt_real hres hb hlt')
        · exact hles j hj'

lemma runTrials_min (step : List ℚ → List ℚ × NpVal)
    (inits : List (List ℚ)) (hne : inits ≠ [])
    (hall : ∀ i ∈ inits, (step i).2.isReal = true) :
    ∃ best, runTrials step inits = (best.2, some best) ∧
      (∃ i ∈ inits, best = step i) ∧
      ∀ i ∈ inits, npLe best.2 (step i).2 = true := by
  rcases inits with _ | ⟨i0, rest⟩
  · exact absurd rfl hne
  have hres0 : (step i0).2.isReal = true :=
    hall i0 (List.mem_cons_self i0 rest)
  have hfirst : trialStep step (NpVal.posInf, none) i0 =
      ((step i0).2, some (step i0)) := by
    rcases isReal_exists hres0 with ⟨q, hq⟩
    simp only [trialStep]
    rw [if_pos]
    rw [hq]
    rfl
  unfold runTrials
  rw [List.foldl_cons, hfirst]
  rcases foldl_trialStep_min step rest (step i0) hres0
      (fun j hj => hall j (List.mem_cons_of_mem i0 hj)) with
    ⟨best, heq, hbest, hmem, hle, hles⟩
  refine ⟨best, heq, ?_, ?_⟩
  · rcases hmem with rfl | ⟨j, hj, rfl⟩
    · exact ⟨i0, List.mem_cons_self i0 rest, rfl⟩
    · exact ⟨j, List.mem_cons_of_mem i0 hj, rfl⟩
  · intro j hj
    rcases List.mem_cons.mp hj with rfl | hj'
    · exact hle
    · exact hles j hj'

/-! Concrete fixtures used by witnesses and counterexamples. -/

/-- A one-site, one-cell-type atlas. -/
def atlasC : ReferenceAtlas :=
  { cpg_ids := [("chr1", 0, 100)], K := 1, cell_types := ["ct"], A := [[1]] }

/-- A one-site sample with `m = [1]`, `t = [2]`. -/
def sampleC : Sample := mkSample ("s") [1] [2]

/-! Claim theorems. -/

/-- C10: `log_likelihood_sequencing_perfect` is independent of its
`p01` and `p11` arguments: for every atlas, sigma, sample and any two
rate pairs it returns the same value, even though its signature
accepts both rate parameters. -/
theorem perfect_ll_ignores_error_rates (logpmf : ℚ → ℚ → ℚ → ℚ)
    (atlas : ReferenceAtlas) (sigma : List ℚ) (sample : Sample)
    (p01 p11 q01 q11 : ℚ) :
    log_likelihood_sequencing_perfect logpmf atlas sigma sample p01 p11 =
      log_likelihood_sequencing_perfect logpmf atlas sigma sample q01 q11 :=
  rfl

/-- C5: both likelihood functions clip the expected methylation vector
`x = A·sigma` into `[0,1]` before evaluating the binomial probability,
so evaluating either likelihood with a `sigma` whose entries sum to
more than 1 stays well defined: every entry of the clipped vector lies
in `[0,1]`, and both (total) likelihood functions factor through that
clipped vector. -/
theorem clipping_safety (atlas : ReferenceAtlas) (sigma : List ℚ)
    (sample : Sample) (logpmf : ℚ → ℚ → ℚ → ℚ) (mlog : ℚ → ℚ)
    (p01 p11 : ℚ) (hover : 1 < sigma.sum) :
    (∀ q ∈ clippedX atlas sigma, 0 ≤ q ∧ q ≤ 1) ∧
    log_likelihood_sequencing_perfect logpmf atlas sigma sample p01 p11 =
      (zipW3 logpmf sample.m sample.t (clippedX atlas sigma)).sum ∧
    log_likelihood_sequencing_with_errors logpmf mlog atlas sigma sample p01 p11 =
      (zipW3 logpmf sample.m sample.t
          (pVec p01 p11 (clippedX atlas sigma))).sum
        - binomial_coef_term mlog sample := by
  refine ⟨?_, rfl, rfl⟩
  intro q hq
  rcases List.mem_map.mp hq with ⟨a, _, rfl⟩
  exact ⟨clip01_nonneg a, clip01_le_one a⟩

/-- Witness for C5 at `sigma = [2]` (entry sum `2 > 1`). -/
theorem clipping_safety_witness :
    (1 : ℚ) < ([(2 : ℚ)] : List ℚ).sum ∧
    (∀ q ∈ clippedX atlasC [(2 : ℚ)], 0 ≤ q ∧ q ≤ 1) :=
  ⟨by norm_num [List.sum_cons, List.sum_nil],
   (clipping_safety atlasC [(2 : ℚ)] sampleC (fun _ _ _ => 0) (fun _ => 0)
      0 0 (by norm_num [List.sum_cons, List.sum_nil])).1⟩

lemma zipWith_div_scale (c : ℚ) (hc : c ≠ 0) :
    ∀ (m t : List ℚ),
      List.zipWith (fun a b => a / b) (m.map (fun a => c * a))
          (t.map (fun b => c * b)) =
        List.zipWith (fun a b => a / b) m t
  | [], t => by cases t <;> rfl
  | a :: as, [] => rfl
  | a :: as, b :: bs => by
      simp only [List.map_cons, List.zipWith_cons_cons]
      rw [mul_div_mul_left a b hc, zipWith_div_scale c hc as bs]

/-- C4: multiplying all of a sample's `m` and `t` counts by the same
positive constant leaves `x_hat` unchanged and therefore does not
change the mixture vector returned by the nnls driver, because
`fit_nnls` reads only `atlas.A` and `sample.x_hat` (it solves
`min ||A'σ − b||` with `A'` = `A` plus an appended all-ones row and
`b` = `x_hat` plus an appended `1.0`, then renormalizes). -/
theorem nnls_rescale_invariant
    (nnlsSolve : List (List ℚ) → List ℚ → List ℚ)
    (atlas : ReferenceAtlas) (name : String) (m t : List ℚ) (c : ℚ)
    (hc : 0 < c) :
    fit_nnls nnlsSolve atlas
        (mkSample name (m.map (fun a => c * a)) (t.map (fun b => c * b))) =
      fit_nnls nnlsSolve atlas (mkSample name m t) := by
  unfold fit_nnls mkSample
  simp only
  rw [zipWith_div_scale c (ne_of_gt hc) m t]

/-- Witness for C4 at `c = 2`, `m = [1]`, `t = [2]`. -/
theorem nnls_rescale_invariant_witness :
    (0 : ℚ) < 2 ∧
    fit_nnls (fun _ _ => [1]) atlasC
        (mkSample ("s") (([(1 : ℚ)]).map (fun a => 2 * a))
          (([(2 : ℚ)]).map (fun b => 2 * b))) =
      fit_nnls (fun _ _ => [1]) atlasC (mkSample ("s") [(1 : ℚ)] [(2 : ℚ)]) :=
  ⟨by decide,
   nnls_rescale_invariant (fun _ _ => [1]) atlasC ("s") [(1 : ℚ)] [(2 : ℚ)]
     2 (by decide)⟩

/-- C8 counterexample: a retained site with `t = 0` does not make the
`xhat = m/t` construction fail with a division error — numpy division
returns normally and the `0/0` site is a silent `nan` (a positive
numerator would give `inf`). -/
theorem xhat_zero_total_yields_nan_not_error :
    computeXhat [0] [0] = Except.ok [NpVal.nan] ∧
    computeXhat [1] [0] = Except.ok [NpVal.posInf] :=
  ⟨rfl, rfl⟩

lemma zipWith_npDiv_exact :
    ∀ (m t : List ℚ), (∀ q ∈ t, q ≠ 0) →
      List.zipWith npDiv m t =
        List.zipWith (fun a b => NpVal.real (a / b)) m t
  | [], t, _ => by cases t <;> rfl
  | a :: as, [], _ => rfl
  | a :: as, b :: bs, h => by
      have hb : b ≠ 0 := h b (List.mem_cons_self b bs)
      have ih := zipWith_npDiv_exact as bs
        (fun q hq => h q (List.mem_cons_of_mem b hq))
      simp only [List.zipWith_cons_cons, npDiv, if_neg hb, ih]

/-- C8 amended: the `xhat = m/t` construction never raises; when every
total count is nonzero each entry is exactly `m[i]/t[i]`, and a site
with `t[i] = 0` silently produces `nan` (for `m[i] = 0`) or a signed
infinity instead of failing with a `DivisionByZeroError`. -/
theorem xhat_exact_when_totals_nonzero (m t : List ℚ)
    (h : ∀ q ∈ t, q ≠ 0) :
    computeXhat m t =
      Except.ok (List.zipWith (fun a b => NpVal.real (a / b)) m t) := by
  unfold computeXhat
  rw [zipWith_npDiv_exact m t h]

/-- Witness for C8 amended at `m = [1, 3]`, `t = [2, 4]`. -/
theorem xhat_exact_when_totals_nonzero_witness :
    (∀ q ∈ ([(2 : ℚ), 4] : List ℚ), q ≠ 0) ∧
    computeXhat [(1 : ℚ), 3] [(2 : ℚ), 4] =
      Except.ok (List.zipWith (fun a b => NpVal.real (a / b))
        [(1 : ℚ), 3] [(2 : ℚ), 4]) :=
  ⟨by decide, xhat_exact_when_totals_nonzero [(1 : ℚ), 3] [(2 : ℚ), 4] (by decide)⟩

/-- A joined table whose only columns are the three coordinate
columns: zero cell-type columns remain. -/
def grZero : GRangesTable :=
  { chrom := ["chr1"]
    chromStart := [0]
    chromEnd := [100]
    columns := ["Chromosome", "Start", "End"]
    col := fun _ => [0] }

/-- C9 counterexample: `ReferenceAtlas.__init__` does not reject an
input with zero cell-type columns — construction succeeds and yields
`K = 0` with `A` a `1×0` matrix, instead of raising a
`MalformedAtlasError`. -/
theorem atlas_zero_cell_types_constructs_without_error :
    (mkReferenceAtlas grZero).K = 0 ∧
    (mkReferenceAtlas grZero).A = [[]] ∧
    (mkReferenceAtlas grZero).cpg_ids = [("chr1", 0, 100)] :=
  ⟨rfl, rfl, rfl⟩

/-- C9 amended: `ReferenceAtlas` construction performs no validation
and always succeeds: `K` is the number of distinct non-reserved
columns (so `K = 0`, not an error, when none remain), `A` is an `N×K`
matrix, and `K ≥ 1` holds exactly when some non-reserved column is
present. -/
theorem mkReferenceAtlas_no_validation (gr : GRangesTable) :
    (mkReferenceAtlas gr).K =
      ((gr.columns.filter (fun c => c ∉ reservedColumns)).dedup).length ∧
    (mkReferenceAtlas gr).A.length = gr.chrom.length ∧
    (∀ row ∈ (mkReferenceAtlas gr).A, row.length = (mkReferenceAtlas gr).K) ∧
    (1 ≤ (mkReferenceAtlas gr).K ↔ ∃ c ∈ gr.columns, c ∉ reservedColumns) := by
  refine ⟨rfl, by simp [mkReferenceAtlas], ?_, ?_⟩
  · intro row hrow
    simp only [mkReferenceAtlas, List.mem_map] at hrow
    rcases hrow with ⟨i, _, rfl⟩
    simp [mkReferenceAtlas]
  · have hK : (mkReferenceAtlas gr).K =
      ((gr.columns.filter (fun c => c ∉ reservedColumns)).dedup).length := rfl
    rw [hK, Nat.one_le_iff_ne_zero, Ne, List.length_eq_zero,
      List.dedup_eq_nil]
    constructor
    · intro h
      rcases List.exists_mem_of_ne_nil _ h with ⟨c, hc⟩
      rw [List.mem_filter] at hc
      exact ⟨c, hc.1, by simpa using hc.2⟩
    · rintro ⟨c, hc, hcr⟩ hnil
      have : c ∈ gr.columns.filter (fun c => c ∉ reservedColumns) :=
        List.mem_filter.mpr ⟨hc, by simpa using hcr⟩
      rw [hnil] at this
      exact List.not_mem_nil c this

/-- C7 counterexample: calling `fit_model` with the unsupported model
name `foo` reads the atlas file and the methylome file first, and only
then raises — and what is raised is a `ValueError`, not an
`UnknownModelError`. -/
theorem fit_model_reads_files_before_unknown_model_error :
    fit_model_events ("sample.tsv") ("atlas.tsv") ("foo") =
      [FitEvent.readFile ("atlas.tsv"), FitEvent.readFile ("sample.tsv"),
       FitEvent.raiseValueError
         ("no such model: foo. Choose from [nnls, llse, llsp, mmse]")] := by
  rfl

/-- C7 amended: when the requested model name is not in
`{nnls, llse, llsp, null}`, `fit_model` raises a `ValueError` — after
both input files have been read but before any fitting dispatch. -/
theorem unknown_model_value_error_after_reads
    (methylome atlas_path model : String) (h : model ∉ supportedModels) :
    fit_model_events methylome atlas_path model =
      [FitEvent.readFile atlas_path, FitEvent.readFile methylome,
       FitEvent.raiseValueError
         ("no such model: " ++ model ++ ". Choose from [nnls, llse, llsp, mmse]")] ∧
    ∀ name, FitEvent.fitModel name ∉ fit_model_events methylome atlas_path model := by
  unfold fit_model_events
  rw [if_neg h]
  refine ⟨rfl, ?_⟩
  intro name hmem
  simp only [List.cons_append, List.nil_append, List.mem_cons,
    List.not_mem_nil] at hmem
  rcases hmem with h1 | h1 | h1 | h1 <;>
    first
      | exact FitEvent.noConfusion h1
      | exact h1

/-- Witness for C7 amended at `model = "foo"`. -/
theorem unknown_model_value_error_after_reads_witness :
    (("foo" : String) ∉ supportedModels) ∧
    fit_model_events ("m.tsv") ("a.tsv") ("foo") =
      [FitEvent.readFile ("a.tsv"), FitEvent.readFile ("m.tsv"),
       FitEvent.raiseValueError
         ("no such model: " ++ "foo" ++ ". Choose from [nnls, llse, llsp, mmse]")] :=
  ⟨by decide,
   (unknown_model_value_error_after_reads ("m.tsv") ("a.tsv") ("foo")
      (by decide)).1⟩

/-- C6: when every one of the 10 multi-start trials fails to produce a
better-than-initial objective (here: the minimizer reports a `nan`
objective on every trial, so `ll < best_ll` never holds), `fit_llse`
and `fit_llsp` do not raise an `OptimizationFailedError` — `best_sol`
is still `None` and the source crashes dereferencing `best_sol.x`
(modelled as the `none` result). -/
theorem multistart_all_failed_trials_crash :
    fit_llse (fun _ n => List.replicate n [1])
        (fun _ _ _ _ _ => ([1], NpVal.nan)) (fun _ _ _ => 0) (fun _ => 0)
        atlasC sampleC 0 0 = none ∧
    fit_llsp (fun _ n => List.replicate n [1])
        (fun _ _ _ _ _ => ([1], NpVal.nan)) (fun _ _ _ => 0)
        atlasC sampleC 0 0 = none :=
  ⟨rfl, rfl⟩

/-- C1: for every supported model (`null`, `nnls`, `llse`, `llsp`)
applied to any valid atlas/sample pair, the mixture vector returned by
the optimization driver has all entries ≥ 0 and sums to 1, because
each driver divides its raw result by the result's sum as a final
re-normalization step (the uniform driver returning `[1/K,…,1/K]`
trivially).  The external solvers are assumed to meet their contracts:
`nnls` returns a non-negative vector, and SLSQP respects the bounds
`[0,1]^K`; in both cases the raw vector's sum is positive so the final
division is defined. -/
theorem simplex_closure
    (atlas : ReferenceAtlas) (sample : Sample)
    (nnlsSolve : List (List ℚ) → List ℚ → List ℚ)
    (dirichletRvs : List ℚ → ℕ → List (List ℚ))
    (minimizeE minimizeP : Minimizer)
    (logpmf : ℚ → ℚ → ℚ → ℚ) (mlog : ℚ → ℚ) (p01 p11 : ℚ)
    (v w : List ℚ)
    (hK : 1 ≤ atlas.K)
    (hnn0 : ∀ q ∈ nnlsSolve (atlas.A ++ [List.replicate atlas.K 1])
        (sample.x_hat ++ [1]), 0 ≤ q)
    (hnns : 0 < (nnlsSolve (atlas.A ++ [List.replicate atlas.K 1])
        (sample.x_hat ++ [1])).sum)
    (hE : ∀ f init n bnds cfun,
      (∀ q ∈ (minimizeE f init n bnds cfun).1, 0 ≤ q) ∧
      0 < (minimizeE f init n bnds cfun).1.sum)
    (hP : ∀ f init n bnds cfun,
      (∀ q ∈ (minimizeP f init n bnds cfun).1, 0 ≤ q) ∧
      0 < (minimizeP f init n bnds cfun).1.sum)
    (hv : fit_llse dirichletRvs minimizeE logpmf mlog atlas sample p01 p11 =
      some v)
    (hw : fit_llsp dirichletRvs minimizeP logpmf atlas sample p01 p11 =
      some w) :
    ((∀ q ∈ fit_uniform atlas sample, 0 ≤ q) ∧
      (fit_uniform atlas sample).sum = 1) ∧
    ((∀ q ∈ fit_nnls nnlsSolve atlas sample, 0 ≤ q) ∧
      (fit_nnls nnlsSolve atlas sample).sum = 1) ∧
    ((∀ q ∈ v, 0 ≤ q) ∧ v.sum = 1) ∧
    ((∀ q ∈ w, 0 ≤ q) ∧ w.sum = 1) := by
  have hKne : (atlas.K : ℚ) ≠ 0 :=
    Nat.cast_ne_zero.mpr (Nat.one_le_iff_ne_zero.mp hK)
  refine ⟨⟨?_, ?_⟩, ?_, ?_, ?_⟩
  · intro q hq
    rw [List.eq_of_mem_replicate hq]
    exact div_nonneg zero_le_one (Nat.cast_nonneg atlas.K)
  · unfold fit_uniform
    rw [List.sum_replicate, nsmul_eq_mul]
    exact mul_one_div_cancel hKne
  · exact npNormalize_simplex _ hnn0 hnns
  · simp only [fit_llse] at hv
    rcases Option.map_eq_some'.mp hv with ⟨b, hb, rfl⟩
    rcases foldl_trialStep_mem _ _ _ _ hb with h' | ⟨i, _, rfl⟩
    · exact absurd h' (by simp)
    · exact npNormalize_simplex _ (hE _ i 100 _ eq_constraint).1
        (hE _ i 100 _ eq_constraint).2
  · simp only [fit_llsp] at hw
    rcases Option.map_eq_some'.mp hw with ⟨b, hb, rfl⟩
    rcases foldl_trialStep_mem _ _ _ _ hb with h' | ⟨i, _, rfl⟩
    · exact absurd h' (by simp)
    · exact npNormalize_simplex _ (hP _ i 100 _ eq_constraint).1
        (hP _ i 100 _ eq_constraint).2

lemma pVec_eq_map (p01 p11 : ℚ) (x : List ℚ) :
    pVec p01 p11 x = x.map (fun xi =>
      if p11 ≠ 0 then xi * p11 + (1 - xi) * p01
      else xi * (1 - p01) + (1 - xi) * p01) := by
  unfold pVec
  by_cases hp : p11 = 0
  · simp [hp]
  · simp [hp]

/-- C2: for every atlas, mixture vector `sigma`, sample and rates
`p01`, `p11`, the sequencing-error log-likelihood equals the sum over
sites `i` of the binomial log-pmf of `m[i]` successes in `t[i]` trials
with success probability `p[i]`, minus the normalization term
`Σ log C(t[i], m[i])`, where `x = clip(A·sigma, 0, 1)` and
`p[i] = x[i]*p11 + (1-x[i])*p01` when `p11` is nonzero, else
`p[i] = x[i]*(1-p01) + (1-x[i])*p01` (the sample's count vectors being
aligned with the atlas rows). -/
theorem ll_with_errors_matches_spec
    (logpmf : ℚ → ℚ → ℚ → ℚ) (mlog : ℚ → ℚ) (atlas : ReferenceAtlas)
    (sigma : List ℚ) (sample : Sample) (p01 p11 : ℚ)
    (hm : sample.m.length = atlas.A.length)
    (ht : sample.t.length = atlas.A.length) :
    log_likelihood_sequencing_with_errors logpmf mlog atlas sigma sample p01 p11 =
      ll_with_errors_spec logpmf mlog atlas sigma sample p01 p11 := by
  have hpvec : pVec p01 p11 (clippedX atlas sigma) =
      atlas.A.map (fun row =>
        if p11 ≠ 0 then
          clip01 (dot row sigma) * p11 + (1 - clip01 (dot row sigma)) * p01
        else
          clip01 (dot row sigma) * (1 - p01) +
            (1 - clip01 (dot row sigma)) * p01) := by
    rw [pVec_eq_map]
    unfold clippedX ReferenceAtlas.get_x
    rw [List.map_map, List.map_map]
    rfl
  have hplen : (pVec p01 p11 (clippedX atlas sigma)).length =
      atlas.A.length := by
    rw [hpvec]
    exact List.length_map _ _
  unfold log_likelihood_sequencing_with_errors ll_with_errors_spec
    binomial_coef_term
  rw [zipW3_sum_eq logpmf atlas.A.length sample.m sample.t _ hm ht hplen]
  rw [zip_map_sum_eq
    (fun a b => mlog ((Nat.choose (pyInt b) (pyInt a) : ℕ) : ℚ))
    atlas.A.length sample.m sample.t hm ht]
  congr 1
  apply Finset.sum_congr rfl
  intro i hi
  rw [hpvec, getD_map_lt _ atlas.A i 0 [] (Finset.mem_range.mp hi)]

/-- Witness for C2 on the one-site fixture. -/
theorem ll_with_errors_matches_spec_witness :
    sampleC.m.length = atlasC.A.length ∧
    sampleC.t.length = atlasC.A.length ∧
    log_likelihood_sequencing_with_errors (fun _ _ _ => 0) (fun _ => 0)
        atlasC [1] sampleC 0 0 =
      ll_with_errors_spec (fun _ _ _ => 0) (fun _ => 0) atlasC [1] sampleC 0 0 :=
  ⟨rfl, rfl,
   ll_with_errors_matches_spec (fun _ _ _ => 0) (fun _ => 0) atlasC [1]
     sampleC 0 0 rfl rfl⟩

/-- Witness for C1 with a constant external nnls solver and minimizer
meeting their contracts on the one-site fixture. -/
theorem simplex_closure_witness :
    1 ≤ atlasC.K ∧ (0 : ℚ) < ([(1 : ℚ)] : List ℚ).sum ∧
    (((∀ q ∈ fit_uniform atlasC sampleC, 0 ≤ q) ∧
        (fit_uniform atlasC sampleC).sum = 1) ∧
      ((∀ q ∈ fit_nnls (fun _ _ => [1]) atlasC sampleC, 0 ≤ q) ∧
        (fit_nnls (fun _ _ => [1]) atlasC sampleC).sum = 1) ∧
      ((∀ q ∈ npNormalize [1], 0 ≤ q) ∧ (npNormalize [1]).sum = 1) ∧
      ((∀ q ∈ npNormalize [1], 0 ≤ q) ∧ (npNormalize [1]).sum = 1)) := by
  refine ⟨by decide, by norm_num [List.sum_cons, List.sum_nil], ?_⟩
  exact simplex_closure atlasC sampleC (fun _ _ => [1])
    (fun _ n => List.replicate n [1])
    (fun _ _ _ _ _ => ([1], NpVal.real 0))
    (fun _ _ _ _ _ => ([1], NpVal.real 0))
    (fun _ _ _ => 0) (fun _ => 0) 0 0 (npNormalize [1]) (npNormalize [1])
    (by decide)
    (by decide)
    (by norm_num [List.sum_cons, List.sum_nil])
    (fun _ _ _ _ _ =>
      ⟨by
         show ∀ q ∈ ([(1 : ℚ)] : List ℚ), 0 ≤ q
         decide,
       by
         show (0 : ℚ) < ([(1 : ℚ)] : List ℚ).sum
         norm_num [List.sum_cons, List.sum_nil]⟩)
    (fun _ _ _ _ _ =>
      ⟨by
         show ∀ q ∈ ([(1 : ℚ)] : List ℚ), 0 ≤ q
         decide,
       by
         show (0 : ℚ) < ([(1 : ℚ)] : List ℚ).sum
         norm_num [List.sum_cons, List.sum_nil]⟩)
    rfl rfl

/-- C3: for the `llse` and `llsp` drivers in multi-start mode, the 10
starting vectors passed to the bounded, equality-constrained SLSQP
minimizer (capped at 100 iterations) are exactly
`dirichlet.rvs([1/K]*K, size=10)`, and — whenever the minimizer
reports an ordinary (non-`nan`, finite) objective on each trial — the
returned solution is the renormalized `x` of a trial whose achieved
objective value is ≤ the objective value of every individual trial's
result. -/
theorem multistart_selects_min
    (atlas : ReferenceAtlas) (sample : Sample)
    (dirichletRvs : List ℚ → ℕ → List (List ℚ))
    (minimizeE minimizeP : Minimizer)
    (logpmf : ℚ → ℚ → ℚ → ℚ) (mlog : ℚ → ℚ) (p01 p11 : ℚ)
    (hlen : (dirichletRvs (dirichletAlpha atlas.K) 10).length = 10)
    (hrealE : ∀ init ∈ dirichletRvs (dirichletAlpha atlas.K) 10,
      ((minimizeE (llseObjective logpmf mlog atlas sample p01 p11) init 100
          (simplexBounds atlas.K) eq_constraint).2).isReal = true)
    (hrealP : ∀ init ∈ dirichletRvs (dirichletAlpha atlas.K) 10,
      ((minimizeP (llspObjective logpmf atlas sample p01 p11) init 100
          (simplexBounds atlas.K) eq_constraint).2).isReal = true) :
    (∃ best,
      (∃ i ∈ dirichletRvs (dirichletAlpha atlas.K) 10,
        best = minimizeE (llseObjective logpmf mlog atlas sample p01 p11) i
          100 (simplexBounds atlas.K) eq_constraint) ∧
      fit_llse dirichletRvs minimizeE logpmf mlog atlas sample p01 p11 =
        some (npNormalize best.1) ∧
      ∀ i ∈ dirichletRvs (dirichletAlpha atlas.K) 10,
        npLe best.2
          (minimizeE (llseObjective logpmf mlog atlas sample p01 p11) i 100
            (simplexBounds atlas.K) eq_constraint).2 = true) ∧
    (∃ best,
      (∃ i ∈ dirichletRvs (dirichletAlpha atlas.K) 10,
        best = minimizeP (llspObjective logpmf atlas sample p01 p11) i
          100 (simplexBounds atlas.K) eq_constraint) ∧
      fit_llsp dirichletRvs minimizeP logpmf atlas sample p01 p11 =
        some (npNormalize best.1) ∧
      ∀ i ∈ dirichletRvs (dirichletAlpha atlas.K) 10,
        npLe best.2
          (minimizeP (llspObjective logpmf atlas sample p01 p11) i 100
            (simplexBounds atlas.K) eq_constraint).2 = true) := by
  have hne : dirichletRvs (dirichletAlpha atlas.K) 10 ≠ [] := by
    intro h
    rw [h] at hlen
    simp at hlen
  constructor
  · rcases runTrials_min
        (fun init => minimizeE (llseObjective logpmf mlog atlas sample p01 p11)
          init 100 (simplexBounds atlas.K) eq_constraint)
        (dirichletRvs (dirichletAlpha atlas.K) 10) hne hrealE with
      ⟨best, heq, hmem, hles⟩
    refine ⟨best, hmem, ?_, hles⟩
    simp only [fit_llse]
    rw [heq]
    rfl
  · rcases runTrials_min
        (fun init => minimizeP (llspObjective logpmf atlas sample p01 p11)
          init 100 (simplexBounds atlas.K) eq_constraint)
        (dirichletRvs (dirichletAlpha atlas.K) 10) hne hrealP with
      ⟨best, heq, hmem, hles⟩
    refine ⟨best, hmem, ?_, hles⟩
    simp only [fit_llsp]
    rw [heq]
    rfl

/-- Witness for C3 with a constant minimizer reporting objective `0`
on each of the 10 trials. -/
theorem multistart_selects_min_witness :
    (List.replicate 10 [(1 : ℚ)]).length = 10 ∧
    ((∃ best : List ℚ × NpVal,
        (∃ i ∈ List.replicate 10 [(1 : ℚ)],
          best = ([(1 : ℚ)], NpVal.real 0)) ∧
        fit_llse (fun _ n => List.replicate n [1])
            (fun _ _ _ _ _ => ([1], NpVal.real 0)) (fun _ _ _ => 0)
            (fun _ => 0) atlasC sampleC 0 0 = some (npNormalize best.1) ∧
        ∀ i ∈ List.replicate 10 [(1 : ℚ)],
          npLe best.2 (NpVal.real 0) = true) ∧
      (∃ best : List ℚ × NpVal,
        (∃ i ∈ List.replicate 10 [(1 : ℚ)],
          best = ([(1 : ℚ)], NpVal.real 0)) ∧
        fit_llsp (fun _ n => List.replicate n [1])
            (fun _ _ _ _ _ => ([1], NpVal.real 0)) (fun _ _ _ => 0)
            atlasC sampleC 0 0 = some (npNormalize best.1) ∧
        ∀ i ∈ List.replicate 10 [(1 : ℚ)],
          npLe best.2 (NpVal.real 0) = true)) :=
  ⟨rfl,
   multistart_selects_min atlasC sampleC (fun _ n => List.replicate n [1])
     (fun _ _ _ _ _ => ([1], NpVal.real 0))
     (fun _ _ _ _ _ => ([1], NpVal.real 0))
     (fun _ _ _ => 0) (fun _ => 0) 0 0 rfl (fun _ _ => rfl) (fun _ _ => rfl)⟩

end Nanomix
